import Mathlib

/-!
# Verification of the Avogadro I/O storage core

This file embeds the two components of the repository's storage core and
proves the specified properties about them:

* `Avogadro.Io.FileFormat` — the abstract file-format plugin contract from
  `src/avogadro/io/fileformat.h` (error log and source-path state).
* `Avogadro.Io.Hdf5DataFormat` — the hierarchical, path-addressed dataset
  store exercised by the HDF5 test suite (`src/unnamed/part_000`).

The repository ships only the header of `FileFormat` and the test file of
`Hdf5DataFormat`; the method bodies live in translation units that are not
part of the repository.  Where a body is missing, the corresponding Lean
definition is modelled from the specification (its doc comment says so and
names the missing function); everything else is translated directly from
the source.
-/

namespace Avogadro

namespace Io

/-- State of `FileFormat` from `src/avogadro/io/fileformat.h`: the two
private `std::string` members `m_error` (error log) and `m_fileName`
(source path). -/
structure FileFormat where
  m_error : String
  m_fileName : String
deriving DecidableEq, Repr

/-- The implicitly generated default constructor of `FileFormat`: the
header declares no constructor, so both `std::string` members are
default-constructed, i.e. empty. -/
def FileFormat.init : FileFormat := ⟨"", ""⟩

/-- Accessor `FileFormat::error` (inline in the header): returns `m_error`. -/
def FileFormat.error (f : FileFormat) : String := f.m_error

/-- Accessor `FileFormat::fileName` (inline in the header): returns `m_fileName`. -/
def FileFormat.fileName (f : FileFormat) : String := f.m_fileName

/-- Modelled from the spec: the body of `FileFormat::clear` is in
`fileformat.cpp`, which is not in the repository.  Spec §4.1: "resets
error log and source path to empty; must be safe to call at any time". -/
def FileFormat.clear (f : FileFormat) : FileFormat :=
  { f with m_error := "", m_fileName := "" }

/-- Modelled from the spec: the body of `FileFormat::appendError` is in
`fileformat.cpp`, which is not in the repository.  Spec §4.1: "appends
`text` to the error log, optionally followed by a line separator; does
not clear existing content". -/
def FileFormat.appendError (f : FileFormat) (errorString : String)
    (newLine : Bool) : FileFormat :=
  { f with m_error :=
      f.m_error ++ errorString ++ (if newLine then "\n" else "") }

/-- Open modes of `Hdf5DataFormat` (`Hdf5DataFormat::ReadOnly`,
`ReadWriteAppend`, `ReadWriteTruncate`), as used by the tests. -/
inductive OpenMode
  | ReadOnly
  | ReadWriteAppend
  | ReadWriteTruncate
deriving DecidableEq, Repr

/-- An `Eigen::MatrixXd` as the tests use it: a dense matrix of doubles,
embedded as its two dimensions together with the flat sequence of its
entries (the storage order is an implementation detail of the engine;
round-trips preserve it). -/
structure MatrixXd where
  rows : Nat
  cols : Nat
  entries : List Float

/-- A stored dataset: the shape supplied at write time plus the flat
payload of doubles (spec §3). -/
structure Dataset where
  shape : List Nat
  payload : List Float

/-- Modelled from the spec: the state of `Hdf5DataFormat`
(`hdf5dataformat.cpp` is not in the repository).  Spec §3: a
process-configurable byte threshold, and a backing handle that is either
`none` (closed) or an open container resource.  Spec §9 suggests the
container content be a mapping from normalized paths to dataset
metadata; we embed it as an association list keyed by the normalized
path string. -/
structure Hdf5DataFormat where
  m_threshold : Nat
  m_file : Option (OpenMode × List (String × Dataset))

/-- Modelled from the spec: path normalization, first step — "strip one
optional leading `/`" (spec §4.2). -/
def normalizePath (p : String) : String :=
  match p.data with
  | '/' :: rest => String.mk rest
  | _ => p

/-- Split a character sequence at every `'/'`.  `splitSlash` of the
character data of a normalized path yields its segments (spec §4.2:
"split remaining string on `/`"). -/
def splitSlash : List Char → List String
  | [] => [""]
  | c :: rest =>
    if c = '/' then "" :: splitSlash rest
    else
      match splitSlash rest with
      | [] => [String.mk [c]]
      | s :: ss => String.mk (c :: s.data) :: ss

/-- Segments of an already-normalized stored key. -/
def keySegments (k : String) : List String := splitSlash k.data

/-- Segments of a caller-supplied path: normalize, then split (spec
§4.2's path normalization algorithm). -/
def pathSegments (p : String) : List String := keySegments (normalizePath p)

/-- The entries of the open container, or `[]` when the store is
closed. -/
def Hdf5DataFormat.entries (h : Hdf5DataFormat) : List (String × Dataset) :=
  match h.m_file with
  | none => []
  | some (_, es) => es

/-- Setter `Hdf5DataFormat::setThreshold` — pure configuration setter
(spec §4.2), as exercised by the `thresholds` test. -/
def Hdf5DataFormat.setThreshold (h : Hdf5DataFormat) (bytes : Nat) :
    Hdf5DataFormat :=
  { h with m_threshold := bytes }

/-- Getter `Hdf5DataFormat::threshold` — pure configuration getter (spec §4.2). -/
def Hdf5DataFormat.threshold (h : Hdf5DataFormat) : Nat := h.m_threshold

/-- Modelled from the spec: `Hdf5DataFormat::exceedsThreshold(size_t)`
(`hdf5dataformat.cpp` is not in the repository).  Spec §4.2: "strictly
greater-than — a size exactly equal to the threshold does NOT exceed
it"; a pure predicate that never touches the open file. -/
def Hdf5DataFormat.exceedsThreshold (h : Hdf5DataFormat) (bytes : Nat) :
    Bool :=
  decide (h.m_threshold < bytes)

/-- The value of `sizeof(double)` on the platforms the tests target. -/
def sizeofDouble : Nat := 8

/-- Modelled from the spec: the `Eigen::MatrixXd` overload of
`exceedsThreshold` computes the byte size as
`elementCount * sizeof(element)` and delegates (spec §4.2). -/
def Hdf5DataFormat.exceedsThresholdMat (h : Hdf5DataFormat)
    (mat : MatrixXd) : Bool :=
  h.exceedsThreshold (mat.rows * mat.cols * sizeofDouble)

/-- Modelled from the spec: the `std::vector<double>` overload of
`exceedsThreshold` computes the byte size as
`elementCount * sizeof(element)` and delegates (spec §4.2). -/
def Hdf5DataFormat.exceedsThresholdVec (h : Hdf5DataFormat)
    (vec : List Float) : Bool :=
  h.exceedsThreshold (vec.length * sizeofDouble)

/-- Modelled from the spec: `Hdf5DataFormat::openFile`.  The filesystem
is passed explicitly: `disk` is the current content of the container
file at the requested path (`none` when no such file exists).  Spec
§4.2: ReadOnly fails if the file is absent; ReadWriteAppend creates if
absent and preserves existing datasets; ReadWriteTruncate creates
fresh, discarding existing content; double-open is an error. -/
def Hdf5DataFormat.openFile (h : Hdf5DataFormat)
    (disk : Option (List (String × Dataset))) (mode : OpenMode) :
    Hdf5DataFormat × Bool :=
  match h.m_file with
  | some _ => (h, false)
  | none =>
    match mode, disk with
    | OpenMode.ReadOnly, none => (h, false)
    | OpenMode.ReadOnly, some c => ({ h with m_file := some (mode, c) }, true)
    | OpenMode.ReadWriteAppend, none =>
        ({ h with m_file := some (mode, []) }, true)
    | OpenMode.ReadWriteAppend, some c =>
        ({ h with m_file := some (mode, c) }, true)
    | OpenMode.ReadWriteTruncate, _ =>
        ({ h with m_file := some (mode, []) }, true)

/-- Modelled from the spec: `Hdf5DataFormat::closeFile` — flushes and
releases the handle, returning to the closed state; fails if no file is
open (spec §4.2). -/
def Hdf5DataFormat.closeFile (h : Hdf5DataFormat) : Hdf5DataFormat × Bool :=
  match h.m_file with
  | none => (h, false)
  | some _ => ({ h with m_file := none }, true)

/-- Look up the dataset stored at (the normalization of) `p`; `none`
when the store is closed or no dataset is at that path. -/
def Hdf5DataFormat.lookupStore (h : Hdf5DataFormat) (p : String) :
    Option Dataset :=
  match h.m_file with
  | none => none
  | some (_, es) => List.lookup (normalizePath p) es

/-- Modelled from the spec: `Hdf5DataFormat::datasetExists` — true iff a
dataset (not merely a group) exists at the normalized path; never
modifies state, never fails (spec §4.2).  (The embedding's type — a
total function that does not return a store — is the purity.) -/
def Hdf5DataFormat.datasetExists (h : Hdf5DataFormat) (p : String) : Bool :=
  (h.lookupStore p).isSome

/-- Modelled from the spec: `Hdf5DataFormat::datasetDimensions` —
returns the dataset's shape, or the empty sequence if absent
(spec §4.2). -/
def Hdf5DataFormat.datasetDimensions (h : Hdf5DataFormat) (p : String) :
    List Nat :=
  match h.lookupStore p with
  | some d => d.shape
  | none => []

/-- Derived group existence: `gs` names an existing group when some stored dataset
lives strictly below the segment sequence `gs` (spec §9: "group
existence is derived lazily from dataset paths sharing a prefix, not
stored as separate entities"). -/
def Hdf5DataFormat.groupExists (h : Hdf5DataFormat) (gs : List String) :
    Bool :=
  h.entries.any fun e =>
    decide (gs.length < (keySegments e.1).length) &&
      ((keySegments e.1).take gs.length == gs)

/-- A group/dataset name clash between a path to be written (segments
`ps`) and an existing dataset key with segments `qs`: one is a strict
prefix of the other, i.e. a dataset stands where a group is needed or
vice versa (spec §4.2: intermediate segments are "created if absent,
reused if already group-typed"). -/
def segConflict (ps qs : List String) : Bool :=
  (decide (ps.length < qs.length) && (qs.take ps.length == ps)) ||
    (decide (qs.length < ps.length) && (ps.take qs.length == qs))

/-- Replace (or create) the entry at key `k`: replace semantics of
`writeDataset` — remove-then-create (spec §4.2). -/
def replaceEntry (es : List (String × Dataset)) (k : String) (d : Dataset) :
    List (String × Dataset) :=
  es.filter (fun e => e.1 != k) ++ [(k, d)]

/-- Modelled from the spec: the common core of both `writeDataset`
overloads (`hdf5dataformat.cpp` is not in the repository).  Requires an
open store; fails on an empty path; creates missing intermediate groups
(failing when a segment clashes with an existing dataset or the leaf is
an existing group); overwrites an existing dataset at the same path
(spec §4.2). -/
def Hdf5DataFormat.writeRaw (h : Hdf5DataFormat) (p : String) (d : Dataset) :
    Hdf5DataFormat × Bool :=
  match h.m_file with
  | none => (h, false)
  | some (mode, es) =>
    if normalizePath p = "" then (h, false)
    else if es.any (fun e => segConflict (pathSegments p) (keySegments e.1))
    then (h, false)
    else ({ h with m_file := some (mode, replaceEntry es (normalizePath p) d) },
          true)

/-- Modelled from the spec: the `Eigen::MatrixXd` overload of
`Hdf5DataFormat::writeDataset` — rank is fixed at 2, shape is
`(rowCount, columnCount)` (spec §4.2). -/
def Hdf5DataFormat.writeDatasetMat (h : Hdf5DataFormat) (p : String)
    (mat : MatrixXd) : Hdf5DataFormat × Bool :=
  h.writeRaw p ⟨[mat.rows, mat.cols], mat.entries⟩

/-- Modelled from the spec: the flat-sequence overload of
`Hdf5DataFormat::writeDataset` — the caller supplies the payload and the
shape (the C signature's `(ndims, size_t *dims)` pair is embedded as the
list of the `ndims` extents) (spec §4.2). -/
def Hdf5DataFormat.writeDatasetVec (h : Hdf5DataFormat) (p : String)
    (vec : List Float) (dims : List Nat) : Hdf5DataFormat × Bool :=
  h.writeRaw p ⟨dims, vec⟩

/-- Modelled from the spec: the `Eigen::MatrixXd` overload of
`Hdf5DataFormat::readDataset` — fails (`none`) when the store is closed,
the dataset is absent, or the stored rank is not 2 (spec §4.2). -/
def Hdf5DataFormat.readDatasetMat (h : Hdf5DataFormat) (p : String) :
    Option MatrixXd :=
  match h.lookupStore p with
  | none => none
  | some d =>
    match d.shape with
    | [r, c] => some ⟨r, c, d.payload⟩
    | _ => none

/-- Modelled from the spec: the flat-sequence overload of
`Hdf5DataFormat::readDataset` — returns the shape (one entry per
dimension; empty if the dataset is absent) together with the payload
read into the output vector (spec §4.2). -/
def Hdf5DataFormat.readDatasetVec (h : Hdf5DataFormat) (p : String) :
    List Nat × List Float :=
  match h.lookupStore p with
  | none => ([], [])
  | some d => (d.shape, d.payload)

/-- Modelled from the spec: `Hdf5DataFormat::removeDataset` — deletes
exactly the dataset at `p`, leaving every other dataset (and hence
sibling/ancestor groups) intact; fails when no dataset exists at `p`
(spec §4.2). -/
def Hdf5DataFormat.removeDataset (h : Hdf5DataFormat) (p : String) :
    Hdf5DataFormat × Bool :=
  match h.m_file with
  | none => (h, false)
  | some (mode, es) =>
    if (List.lookup (normalizePath p) es).isSome then
      let es' := es.filter (fun e => e.1 != normalizePath p)
      ({ h with m_file := some (mode, es') }, true)
    else (h, false)

/-- Byte-wise lexicographic comparison of character sequences, the
order in which the container engine enumerates names (`std::string`
comparison is byte-wise; for the ASCII paths of this store it agrees
with the mathematical lexicographic order, see `charListLe_iff`). -/
def charListLe : List Char → List Char → Bool
  | [], _ => true
  | _ :: _, [] => false
  | a :: as, b :: bs => if a = b then charListLe as bs else decide (a < b)

/-- Lexicographic comparison of two path strings. -/
def pathLe (a b : String) : Bool := charListLe a.data b.data

/-- Modelled from the spec: `Hdf5DataFormat::datasets` — every dataset
path currently stored, sorted lexicographically ascending, recomputed
from the current entries on each call (spec §4.2). -/
def Hdf5DataFormat.datasets (h : Hdf5DataFormat) : List String :=
  List.insertionSort (fun a b => pathLe a b = true) (h.entries.map Prod.fst)

/-- Well-formed store: every stored key is already normalized (no
leading slash) and nonempty, as every key put there by `writeRaw` is.
Container files on disk carry the keys a previous session stored, so
this holds of every reachable store. -/
def Hdf5DataFormat.WF (h : Hdf5DataFormat) : Bool :=
  h.entries.all fun e => (normalizePath e.1 == e.1) && (e.1 != "")

/-! ## Helper lemmas -/

/-- The computable comparator agrees with the strict lexicographic order
on character sequences. -/
theorem charListLe_iff_not_lt (as bs : List Char) :
    charListLe as bs = true ↔ ¬ bs < as := by
  induction as generalizing bs with
  | nil =>
    simp only [charListLe, true_iff]
    exact List.Lex.not_nil_right (· < ·) bs
  | cons a as ih =>
    cases bs with
    | nil =>
      simp only [charListLe, Bool.false_eq_true, false_iff, not_not]
      exact List.nil_lt_cons a as
    | cons b bs =>
      simp only [charListLe]
      by_cases hab : a = b
      · subst hab
        rw [if_pos rfl, ih bs]
        constructor
        · intro h hlt
          rcases List.Lex.cons_iff.mp hlt with h'
          exact h h'
        · intro h h'
          exact h (List.Lex.cons h')
      · rw [if_neg hab]
        rcases lt_trichotomy a b with hlt | heq | hgt
        · simp only [hlt, decide_eq_true_eq, true_iff]
          intro hcon
          replace hcon : List.Lex (· < ·) (b :: bs) (a :: as) := hcon
          cases hcon with
          | cons h' => exact hab rfl
          | rel h' => exact absurd hlt (asymm h')
        · exact absurd heq hab
        · constructor
          · intro h
            exact absurd (of_decide_eq_true h) (asymm hgt)
          · intro h
            exact absurd (List.Lex.rel hgt) h

/-- The computable comparator agrees with the lexicographic order on
strings. -/
theorem pathLe_iff (a b : String) : pathLe a b = true ↔ a ≤ b := by
  rw [String.le_iff_toList_le]
  have : a.toList = a.data := rfl
  have : b.toList = b.data := rfl
  calc pathLe a b = true ↔ ¬ b.data < a.data :=
        charListLe_iff_not_lt a.data b.data
    _ ↔ a.toList ≤ b.toList := not_lt

instance instIsTotalPathLe : IsTotal String (fun a b => pathLe a b = true) :=
  ⟨fun a b => by
    rw [pathLe_iff, pathLe_iff]
    exact le_total a b⟩

instance instIsTransPathLe : IsTrans String (fun a b => pathLe a b = true) :=
  ⟨fun a b c hab hbc => by
    rw [pathLe_iff] at hab hbc ⊢
    exact le_trans hab hbc⟩

theorem lookup_isSome_iff {β : Type} (k : String) :
    ∀ es : List (String × β),
      (List.lookup k es).isSome = true ↔ k ∈ es.map Prod.fst
  | [] => by simp [List.lookup]
  | (a, b) :: es => by
    simp only [List.lookup, List.map, List.mem_cons]
    by_cases hk : k = a
    · subst hk
      simp [Option.isSome]
    · rw [beq_false_of_ne hk]
      simp [lookup_isSome_iff k es, hk]

theorem lookup_filter_self {β : Type} (k : String) :
    ∀ es : List (String × β),
      List.lookup k (es.filter fun e => e.1 != k) = none
  | [] => rfl
  | (a, b) :: es => by
    by_cases ha : a = k
    · subst ha
      simp only [List.filter, bne_self_eq_false]
      exact lookup_filter_self a es
    · have hne : (a != k) = true := bne_iff_ne.mpr ha
      simp only [List.filter, hne]
      rw [List.lookup]
      rw [beq_false_of_ne fun h => ha h.symm]
      exact lookup_filter_self k es

theorem lookup_filter_other {β : Type} (k q : String) (hqk : q ≠ k) :
    ∀ es : List (String × β),
      List.lookup q (es.filter fun e => e.1 != k) = List.lookup q es
  | [] => rfl
  | (a, b) :: es => by
    by_cases ha : a = k
    · subst ha
      simp only [List.filter, bne_self_eq_false]
      rw [List.lookup, beq_false_of_ne hqk]
      exact lookup_filter_other a q hqk es
    · have hne : (a != k) = true := bne_iff_ne.mpr ha
      simp only [List.filter, hne]
      rw [List.lookup, List.lookup]
      cases hqa : q == a with
      | true => rfl
      | false => exact lookup_filter_other k q hqk es

theorem lookup_replaceEntry_self (es : List (String × Dataset)) (k : String)
    (d : Dataset) : List.lookup k (replaceEntry es k d) = some d := by
  unfold replaceEntry
  induction es with
  | nil => simp [List.lookup]
  | cons e es ih =>
    by_cases he : e.1 = k
    · simp only [List.filter, he, bne_self_eq_false]
      exact ih
    · have hne : (e.1 != k) = true := bne_iff_ne.mpr he
      simp only [List.filter, hne, List.cons_append]
      rw [List.lookup]
      rw [beq_false_of_ne fun h => he h.symm]
      exact ih

theorem lookup_replaceEntry_other (es : List (String × Dataset))
    (k q : String) (d : Dataset) (hqk : q ≠ k) :
    List.lookup q (replaceEntry es k d) = List.lookup q es := by
  unfold replaceEntry
  rw [List.lookup_append, lookup_filter_other k q hqk es]
  cases hq : List.lookup q es with
  | some d' => rfl
  | none =>
    simp only [Option.none_or]
    rw [List.lookup, beq_false_of_ne hqk]
    rfl

theorem lookupStore_eq_entries (h : Hdf5DataFormat) (p : String) :
    h.lookupStore p = List.lookup (normalizePath p) h.entries := by
  unfold Hdf5DataFormat.lookupStore Hdf5DataFormat.entries
  cases h.m_file with
  | none => simp [List.lookup]
  | some f => rfl

theorem entries_mk (t : Nat) (mode : OpenMode) (es : List (String × Dataset)) :
    Hdf5DataFormat.entries ⟨t, some (mode, es)⟩ = es := rfl

theorem writeRaw_cases (h : Hdf5DataFormat) (p : String) (d : Dataset) :
    ((h.writeRaw p d).2 = false ∧ (h.writeRaw p d).1 = h) ∨
    (∃ mode es, h.m_file = some (mode, es) ∧
      (h.writeRaw p d).2 = true ∧
      (h.writeRaw p d).1 =
        { h with m_file := some (mode, replaceEntry es (normalizePath p) d) }) := by
  unfold Hdf5DataFormat.writeRaw
  cases hf : h.m_file with
  | none => exact Or.inl ⟨rfl, rfl⟩
  | some f =>
    obtain ⟨mode, es⟩ := f
    dsimp only
    by_cases hp : normalizePath p = ""
    · rw [if_pos hp]
      exact Or.inl ⟨rfl, rfl⟩
    · rw [if_neg hp]
      by_cases hc :
          (es.any fun e => segConflict (pathSegments p) (keySegments e.1)) = true
      · rw [if_pos hc]
        exact Or.inl ⟨rfl, rfl⟩
      · rw [if_neg hc]
        exact Or.inr ⟨mode, es, rfl, rfl, rfl⟩

theorem writeRaw_entries (h : Hdf5DataFormat) (mode : OpenMode)
    (es : List (String × Dataset)) (hf : h.m_file = some (mode, es)) :
    h.entries = es := by
  unfold Hdf5DataFormat.entries
  rw [hf]

theorem writeRaw_lookup_self (h : Hdf5DataFormat) (p : String) (d : Dataset)
    (hok : (h.writeRaw p d).2 = true) :
    (h.writeRaw p d).1.lookupStore p = some d := by
  rcases writeRaw_cases h p d with ⟨hfail, _⟩ | ⟨mode, es, hf, _, hres⟩
  · rw [hok] at hfail
    simp at hfail
  · rw [hres, lookupStore_eq_entries, entries_mk]
    exact lookup_replaceEntry_self es (normalizePath p) d

theorem writeRaw_lookup_other (h : Hdf5DataFormat) (p q : String) (d : Dataset)
    (hq : normalizePath q ≠ normalizePath p) :
    (h.writeRaw p d).1.lookupStore q = h.lookupStore q := by
  rcases writeRaw_cases h p d with ⟨_, hres⟩ | ⟨mode, es, hf, _, hres⟩
  · rw [hres]
  · rw [hres, lookupStore_eq_entries, lookupStore_eq_entries, entries_mk,
      writeRaw_entries h mode es hf]
    exact lookup_replaceEntry_other es (normalizePath p) (normalizePath q) d hq

theorem removeDataset_cases (h : Hdf5DataFormat) (p : String) :
    ((h.removeDataset p).2 = false ∧ (h.removeDataset p).1 = h ∧
      h.lookupStore p = none) ∨
    (∃ mode es, h.m_file = some (mode, es) ∧
      (List.lookup (normalizePath p) es).isSome = true ∧
      (h.removeDataset p).2 = true ∧
      (h.removeDataset p).1 = { h with m_file := some (mode, es.filter fun e => e.1 != normalizePath p) }) := by
  unfold Hdf5DataFormat.removeDataset
  cases hf : h.m_file with
  | none =>
    refine Or.inl ⟨rfl, rfl, ?_⟩
    unfold Hdf5DataFormat.lookupStore
    rw [hf]
  | some f =>
    obtain ⟨mode, es⟩ := f
    dsimp only
    by_cases hl : (List.lookup (normalizePath p) es).isSome = true
    · rw [if_pos hl]
      exact Or.inr ⟨mode, es, rfl, hl, rfl, rfl⟩
    · rw [if_neg hl]
      refine Or.inl ⟨rfl, rfl, ?_⟩
      rw [lookupStore_eq_entries, writeRaw_entries h mode es hf]
      cases hx : List.lookup (normalizePath p) es with
      | none => rfl
      | some d => rw [hx] at hl; simp at hl

theorem removeDataset_lookup_self (h : Hdf5DataFormat) (p : String) :
    (h.removeDataset p).1.lookupStore p = none := by
  rcases removeDataset_cases h p with ⟨_, hres, hnone⟩ | ⟨mode, es, hf, _, _, hres⟩
  · rw [hres]
    exact hnone
  · rw [hres, lookupStore_eq_entries, entries_mk]
    exact lookup_filter_self (normalizePath p) es

theorem removeDataset_lookup_other (h : Hdf5DataFormat) (p q : String)
    (hq : normalizePath q ≠ normalizePath p) :
    (h.removeDataset p).1.lookupStore q = h.lookupStore q := by
  rcases removeDataset_cases h p with ⟨_, hres, _⟩ | ⟨mode, es, hf, _, _, hres⟩
  · rw [hres]
  · rw [hres, lookupStore_eq_entries, lookupStore_eq_entries, entries_mk,
      writeRaw_entries h mode es hf]
    exact lookup_filter_other (normalizePath p) (normalizePath q) hq es

/-! ## Claim theorems -/

/-- C1: every dataset written to an open store and then read back
through the same overload returns the written shape and values: the
flat-sequence overload returns exactly the written shape and doubles,
and the matrix overload returns the written matrix (exact equality of
the embedded representation, which entails the isApprox-style
approximate equality the test asserts, since `isApprox` holds of equal
matrices). -/
theorem writeRead_roundTrip (h : Hdf5DataFormat) (p : String)
    (mat : MatrixXd) (vec : List Float) (dims : List Nat) :
    ((h.writeDatasetMat p mat).2 = true →
      (h.writeDatasetMat p mat).1.readDatasetMat p = some mat) ∧
    ((h.writeDatasetVec p vec dims).2 = true →
      (h.writeDatasetVec p vec dims).1.readDatasetVec p = (dims, vec)) := by
  constructor
  · intro hok
    have hl := writeRaw_lookup_self h p ⟨[mat.rows, mat.cols], mat.entries⟩ hok
    unfold Hdf5DataFormat.writeDatasetMat at hok ⊢
    unfold Hdf5DataFormat.readDatasetMat
    rw [hl]
  · intro hok
    have hl := writeRaw_lookup_self h p ⟨dims, vec⟩ hok
    unfold Hdf5DataFormat.writeDatasetVec at hok ⊢
    unfold Hdf5DataFormat.readDatasetVec
    rw [hl]

theorem writeRead_roundTrip_witness :
    ((⟨0, some (OpenMode.ReadWriteTruncate, [])⟩ :
        Hdf5DataFormat).writeDatasetMat "/Group1/Group2/Data"
        ⟨2, 2, [0.0, 1.0, 1.0, 4.0]⟩).1.readDatasetMat "/Group1/Group2/Data" =
      some ⟨2, 2, [0.0, 1.0, 1.0, 4.0]⟩ ∧
    ((⟨0, some (OpenMode.ReadWriteTruncate, [])⟩ :
        Hdf5DataFormat).writeDatasetVec "/Group1/Group2/Data"
        [1.5, 2.5] [2, 1]).1.readDatasetVec "/Group1/Group2/Data" =
      ([2, 1], [1.5, 2.5]) :=
  ⟨(writeRead_roundTrip ⟨0, some (OpenMode.ReadWriteTruncate, [])⟩
      "/Group1/Group2/Data" ⟨2, 2, [0.0, 1.0, 1.0, 4.0]⟩ [] []).1 (by rfl),
   (writeRead_roundTrip ⟨0, some (OpenMode.ReadWriteTruncate, [])⟩
      "/Group1/Group2/Data" ⟨0, 0, []⟩ [1.5, 2.5] [2, 1]).2 (by rfl)⟩

/-- C2: `exceedsThreshold` is a strict greater-than predicate on byte
counts: false for every size at or below the configured threshold, true
strictly above it; the matrix and flat-sequence overloads delegate after
computing the byte size as element count times `sizeof(double)`; and in
the concrete scenario with threshold 12, sizes 11 and 12 do not exceed
while 13 does, and `12 / sizeof(double)` doubles do not exceed while one
more element does. -/
theorem exceedsThreshold_strict (h : Hdf5DataFormat) (b : Nat)
    (mat : MatrixXd) (vec : List Float) :
    (b ≤ h.threshold → h.exceedsThreshold b = false) ∧
    (h.threshold < b → h.exceedsThreshold b = true) ∧
    (h.exceedsThresholdMat mat =
      h.exceedsThreshold (mat.rows * mat.cols * sizeofDouble)) ∧
    (h.exceedsThresholdVec vec =
      h.exceedsThreshold (vec.length * sizeofDouble)) ∧
    ((h.setThreshold 12).threshold = 12) ∧
    ((h.setThreshold 12).exceedsThreshold 11 = false) ∧
    ((h.setThreshold 12).exceedsThreshold 12 = false) ∧
    ((h.setThreshold 12).exceedsThreshold 13 = true) ∧
    ((h.setThreshold 12).exceedsThresholdVec
      (List.replicate (12 / sizeofDouble) 0.0) = false) ∧
    ((h.setThreshold 12).exceedsThresholdVec
      (List.replicate (12 / sizeofDouble + 1) 0.0) = true) := by
  refine ⟨fun hb => ?_, fun hb => ?_, rfl, rfl, rfl, rfl, rfl, rfl, ?_, ?_⟩
  · exact decide_eq_false (not_lt.mpr hb)
  · exact decide_eq_true hb
  · rfl
  · rfl

theorem exceedsThreshold_strict_witness :
    ((⟨12, none⟩ : Hdf5DataFormat).exceedsThreshold 12 = false) ∧
    ((⟨12, none⟩ : Hdf5DataFormat).exceedsThreshold 13 = true) :=
  ⟨(exceedsThreshold_strict ⟨12, none⟩ 12 ⟨0, 0, []⟩ []).1 (by decide),
   (exceedsThreshold_strict ⟨12, none⟩ 13 ⟨0, 0, []⟩ []).2.1 (by decide)⟩

/-- C5: removing a stored dataset succeeds, afterwards `datasetExists`
on it is false, and every dataset at a different normalized path —
siblings in the same group as well as datasets in ancestor groups — is
untouched; `removeDataset` on an absent dataset fails and leaves the
store unchanged. -/
theorem removeDataset_spec (h : Hdf5DataFormat) (p q : String) :
    (h.datasetExists p = true →
      (h.removeDataset p).2 = true ∧
      (h.removeDataset p).1.datasetExists p = false ∧
      (normalizePath q ≠ normalizePath p →
        (h.removeDataset p).1.datasetExists q = h.datasetExists q)) ∧
    (h.datasetExists p = false →
      (h.removeDataset p).2 = false ∧ (h.removeDataset p).1 = h) := by
  constructor
  · intro hex
    refine ⟨?_, ?_, fun hq => ?_⟩
    · rcases removeDataset_cases h p with ⟨_, _, hnone⟩ | ⟨_, _, _, _, hok, _⟩
      · unfold Hdf5DataFormat.datasetExists at hex
        rw [hnone] at hex
        simp at hex
      · exact hok
    · unfold Hdf5DataFormat.datasetExists
      rw [removeDataset_lookup_self h p]
      rfl
    · unfold Hdf5DataFormat.datasetExists
      rw [removeDataset_lookup_other h p q hq]
  · intro hex
    rcases removeDataset_cases h p with ⟨hf, hres, _⟩ | ⟨mode, es, hfm, hl, _, _⟩
    · exact ⟨hf, hres⟩
    · unfold Hdf5DataFormat.datasetExists at hex
      rw [lookupStore_eq_entries, writeRaw_entries h mode es hfm, hl] at hex
      simp at hex

theorem removeDataset_spec_witness :
    ((⟨0, some (OpenMode.ReadWriteTruncate,
        [("Group1/DeeperData", ⟨[1, 1], [0.0]⟩),
         ("Group1/DeeperDataSibling", ⟨[1, 1], [0.0]⟩)])⟩ :
      Hdf5DataFormat).removeDataset "Group1/DeeperData").2 = true ∧
    ((⟨0, some (OpenMode.ReadWriteTruncate,
        [("Group1/DeeperData", ⟨[1, 1], [0.0]⟩),
         ("Group1/DeeperDataSibling", ⟨[1, 1], [0.0]⟩)])⟩ :
      Hdf5DataFormat).removeDataset
        "Group1/DeeperData").1.datasetExists "Group1/DeeperData" = false ∧
    ((⟨0, some (OpenMode.ReadWriteTruncate,
        [("Group1/DeeperData", ⟨[1, 1], [0.0]⟩),
         ("Group1/DeeperDataSibling", ⟨[1, 1], [0.0]⟩)])⟩ :
      Hdf5DataFormat).removeDataset
        "Group1/DeeperData").1.datasetExists "Group1/DeeperDataSibling" =
      (⟨0, some (OpenMode.ReadWriteTruncate,
        [("Group1/DeeperData", ⟨[1, 1], [0.0]⟩),
         ("Group1/DeeperDataSibling", ⟨[1, 1], [0.0]⟩)])⟩ :
      Hdf5DataFormat).datasetExists "Group1/DeeperDataSibling" := by
  have hmain := (removeDataset_spec
    ⟨0, some (OpenMode.ReadWriteTruncate,
      [("Group1/DeeperData", ⟨[1, 1], [0.0]⟩),
       ("Group1/DeeperDataSibling", ⟨[1, 1], [0.0]⟩)])⟩
    "Group1/DeeperData" "Group1/DeeperDataSibling").1 (by rfl)
  exact ⟨hmain.1, hmain.2.1, hmain.2.2 (by decide)⟩

/-- C6: `datasetExists` returns true exactly when a dataset — not merely
a group — is stored at the normalized path; the embedding is a total
function returning a `Bool` and not a store, so it can neither modify
the store's state nor fail: an absent path (and in particular a
group-only path) yields `false` rather than an error. -/
theorem datasetExists_iff (h : Hdf5DataFormat) (p : String) :
    (h.datasetExists p = true ↔ normalizePath p ∈ h.entries.map Prod.fst) ∧
    (h.lookupStore p = none → h.datasetExists p = false) ∧
    (h.groupExists (pathSegments p) = true → h.lookupStore p = none →
      h.datasetExists p = false) := by
  refine ⟨?_, fun hnone => ?_, fun _ hnone => ?_⟩
  · unfold Hdf5DataFormat.datasetExists
    rw [lookupStore_eq_entries]
    exact lookup_isSome_iff (normalizePath p) h.entries
  · unfold Hdf5DataFormat.datasetExists
    rw [hnone]
    rfl
  · unfold Hdf5DataFormat.datasetExists
    rw [hnone]
    rfl

theorem datasetExists_iff_witness :
    (⟨0, some (OpenMode.ReadOnly, [("Group1/Data", ⟨[1], [0.0]⟩)])⟩ :
      Hdf5DataFormat).datasetExists "/Group1" = false ∧
    (⟨0, some (OpenMode.ReadOnly, [("Group1/Data", ⟨[1], [0.0]⟩)])⟩ :
      Hdf5DataFormat).datasetExists "/Group1/Data" = true :=
  ⟨(datasetExists_iff
      ⟨0, some (OpenMode.ReadOnly, [("Group1/Data", ⟨[1], [0.0]⟩)])⟩
      "/Group1").2.2 (by rfl) (by rfl),
   (datasetExists_iff
      ⟨0, some (OpenMode.ReadOnly, [("Group1/Data", ⟨[1], [0.0]⟩)])⟩
      "/Group1/Data").1.mpr (by decide)⟩

/-- C7: `datasetDimensions` returns exactly the shape supplied at write
time — rank 2 with `[rowCount, columnCount]` for the matrix overload,
the caller-supplied shape for the flat-sequence overload — returns the
empty sequence for an absent path, and the reported shape at any other
path is preserved by writes and removals. -/
theorem datasetDimensions_spec (h : Hdf5DataFormat) (p q : String)
    (mat : MatrixXd) (vec : List Float) (dims : List Nat) :
    ((h.writeDatasetMat p mat).2 = true →
      (h.writeDatasetMat p mat).1.datasetDimensions p =
        [mat.rows, mat.cols]) ∧
    ((h.writeDatasetVec p vec dims).2 = true →
      (h.writeDatasetVec p vec dims).1.datasetDimensions p = dims) ∧
    (h.lookupStore p = none → h.datasetDimensions p = []) ∧
    (normalizePath q ≠ normalizePath p →
      (h.writeDatasetMat p mat).1.datasetDimensions q =
        h.datasetDimensions q ∧
      (h.writeDatasetVec p vec dims).1.datasetDimensions q =
        h.datasetDimensions q ∧
      (h.removeDataset p).1.datasetDimensions q = h.datasetDimensions q) := by
  refine ⟨fun hok => ?_, fun hok => ?_, fun hnone => ?_, fun hq => ?_⟩
  · have hl := writeRaw_lookup_self h p ⟨[mat.rows, mat.cols], mat.entries⟩ hok
    unfold Hdf5DataFormat.writeDatasetMat at hok ⊢
    unfold Hdf5DataFormat.datasetDimensions
    rw [hl]
  · have hl := writeRaw_lookup_self h p ⟨dims, vec⟩ hok
    unfold Hdf5DataFormat.writeDatasetVec at hok ⊢
    unfold Hdf5DataFormat.datasetDimensions
    rw [hl]
  · unfold Hdf5DataFormat.datasetDimensions
    rw [hnone]
  · refine ⟨?_, ?_, ?_⟩
    · unfold Hdf5DataFormat.writeDatasetMat
      unfold Hdf5DataFormat.datasetDimensions
      rw [writeRaw_lookup_other h p q ⟨[mat.rows, mat.cols], mat.entries⟩ hq]
    · unfold Hdf5DataFormat.writeDatasetVec
      unfold Hdf5DataFormat.datasetDimensions
      rw [writeRaw_lookup_other h p q ⟨dims, vec⟩ hq]
    · unfold Hdf5DataFormat.datasetDimensions
      rw [removeDataset_lookup_other h p q hq]

theorem datasetDimensions_spec_witness :
    ((⟨0, some (OpenMode.ReadWriteTruncate,
        [("Group1/DeeperData", ⟨[1, 1], [0.0]⟩)])⟩ :
      Hdf5DataFormat).writeDatasetVec "/TLDData"
        (List.replicate 27 0.0) [3, 3, 3]).1.datasetDimensions "/TLDData" =
      [3, 3, 3] ∧
    ((⟨0, some (OpenMode.ReadWriteTruncate,
        [("Group1/DeeperData", ⟨[1, 1], [0.0]⟩)])⟩ :
      Hdf5DataFormat).writeDatasetVec "/TLDData"
        (List.replicate 27 0.0) [3, 3, 3]).1.datasetDimensions
        "/Group1/DeeperData" =
      (⟨0, some (OpenMode.ReadWriteTruncate,
        [("Group1/DeeperData", ⟨[1, 1], [0.0]⟩)])⟩ :
      Hdf5DataFormat).datasetDimensions "/Group1/DeeperData" := by
  have hmain := datasetDimensions_spec
    ⟨0, some (OpenMode.ReadWriteTruncate,
      [("Group1/DeeperData", ⟨[1, 1], [0.0]⟩)])⟩
    "/TLDData" "/Group1/DeeperData" ⟨0, 0, []⟩
    (List.replicate 27 0.0) [3, 3, 3]
  exact ⟨hmain.2.1 (by rfl), (hmain.2.2.2 (by decide)).2.1⟩

/-- C3: for every open well-formed store, `datasets()` returns exactly
the paths of the currently stored datasets — no group-only paths — with
each path normalized (no leading slash, forward-slash separators, which
is what membership in the stored keys gives) and the listing sorted
lexicographically ascending. -/
theorem datasets_spec (h : Hdf5DataFormat) (hwf : h.WF = true) :
    List.Sorted (· ≤ ·) h.datasets ∧
    (∀ p, p ∈ h.datasets ↔
      (normalizePath p = p ∧ h.datasetExists p = true)) ∧
    (∀ p, h.groupExists (pathSegments p) = true →
      h.datasetExists p = false → p ∉ h.datasets) := by
  have hmem : ∀ p, p ∈ h.datasets ↔ p ∈ h.entries.map Prod.fst := fun p =>
    List.mem_insertionSort (fun a b => pathLe a b = true)
  have hiff : ∀ p, p ∈ h.datasets ↔
      (normalizePath p = p ∧ h.datasetExists p = true) := by
    intro p
    rw [hmem p]
    constructor
    · intro hp
      rw [List.mem_map] at hp
      obtain ⟨e, he, hfst⟩ := hp
      unfold Hdf5DataFormat.WF at hwf
      rw [List.all_eq_true] at hwf
      have hwfe := hwf e he
      rw [Bool.and_eq_true, beq_iff_eq] at hwfe
      subst hfst
      refine ⟨hwfe.1, ?_⟩
      unfold Hdf5DataFormat.datasetExists
      rw [lookupStore_eq_entries, hwfe.1, lookup_isSome_iff]
      exact List.mem_map_of_mem Prod.fst he
    · rintro ⟨hn, hex⟩
      unfold Hdf5DataFormat.datasetExists at hex
      rw [lookupStore_eq_entries, lookup_isSome_iff, hn] at hex
      exact hex
  refine ⟨?_, hiff, ?_⟩
  · have hs := List.sorted_insertionSort (fun a b => pathLe a b = true)
      (h.entries.map Prod.fst)
    exact hs.imp fun hab => (pathLe_iff _ _).1 hab
  · intro p _ hex hin
    have hds := (hiff p).1 hin
    rw [hds.2] at hex
    simp at hex

theorem datasets_spec_witness :
    List.Sorted (· ≤ ·)
      (⟨0, some (OpenMode.ReadOnly,
        [("Test/MoleculeData/Matrix1", ⟨[1], [0.0]⟩),
         ("Data", ⟨[1], [0.0]⟩),
         ("Group1/Group2/Data", ⟨[1], [0.0]⟩)])⟩ :
        Hdf5DataFormat).datasets ∧
    (∀ p, p ∈ (⟨0, some (OpenMode.ReadOnly,
        [("Test/MoleculeData/Matrix1", ⟨[1], [0.0]⟩),
         ("Data", ⟨[1], [0.0]⟩),
         ("Group1/Group2/Data", ⟨[1], [0.0]⟩)])⟩ :
        Hdf5DataFormat).datasets ↔
      (normalizePath p = p ∧
        (⟨0, some (OpenMode.ReadOnly,
          [("Test/MoleculeData/Matrix1", ⟨[1], [0.0]⟩),
           ("Data", ⟨[1], [0.0]⟩),
           ("Group1/Group2/Data", ⟨[1], [0.0]⟩)])⟩ :
          Hdf5DataFormat).datasetExists p = true)) ∧
    (∀ p, (⟨0, some (OpenMode.ReadOnly,
        [("Test/MoleculeData/Matrix1", ⟨[1], [0.0]⟩),
         ("Data", ⟨[1], [0.0]⟩),
         ("Group1/Group2/Data", ⟨[1], [0.0]⟩)])⟩ :
        Hdf5DataFormat).groupExists (pathSegments p) = true →
      (⟨0, some (OpenMode.ReadOnly,
        [("Test/MoleculeData/Matrix1", ⟨[1], [0.0]⟩),
         ("Data", ⟨[1], [0.0]⟩),
         ("Group1/Group2/Data", ⟨[1], [0.0]⟩)])⟩ :
        Hdf5DataFormat).datasetExists p = false →
      p ∉ (⟨0, some (OpenMode.ReadOnly,
        [("Test/MoleculeData/Matrix1", ⟨[1], [0.0]⟩),
         ("Data", ⟨[1], [0.0]⟩),
         ("Group1/Group2/Data", ⟨[1], [0.0]⟩)])⟩ :
        Hdf5DataFormat).datasets) :=
  datasets_spec
    ⟨0, some (OpenMode.ReadOnly,
      [("Test/MoleculeData/Matrix1", ⟨[1], [0.0]⟩),
       ("Data", ⟨[1], [0.0]⟩),
       ("Group1/Group2/Data", ⟨[1], [0.0]⟩)])⟩ (by rfl)

/-- C4: a successful write of a dataset at a multi-segment path (such as
`/Group1/Group2a/Group3/Group4/Group5/Deeeep`) leaves every intermediate
group in existence (auto-created as needed: every proper prefix of the
path's segment sequence names a group afterwards), and a subsequent
`datasets()` listing contains the normalized leaf path exactly once. -/
theorem writeDataset_deepPath (h : Hdf5DataFormat) (p : String)
    (mat : MatrixXd) (k : Nat)
    (hok : (h.writeDatasetMat p mat).2 = true) :
    (k + 1 < (pathSegments p).length →
      (h.writeDatasetMat p mat).1.groupExists
        ((pathSegments p).take (k + 1)) = true) ∧
    (h.writeDatasetMat p mat).1.datasets.count (normalizePath p) = 1 := by
  unfold Hdf5DataFormat.writeDatasetMat at hok ⊢
  rcases writeRaw_cases h p ⟨[mat.rows, mat.cols], mat.entries⟩ with
    ⟨hfail, _⟩ | ⟨mode, es, hf, _, hres⟩
  · rw [hok] at hfail
    simp at hfail
  · constructor
    · intro hk
      rw [hres]
      unfold Hdf5DataFormat.groupExists
      rw [entries_mk, List.any_eq_true]
      refine ⟨(normalizePath p, ⟨[mat.rows, mat.cols], mat.entries⟩), ?_, ?_⟩
      · unfold replaceEntry
        exact List.mem_append_right _ (List.mem_singleton.mpr rfl)
      · have hlen : ((pathSegments p).take (k + 1)).length = k + 1 := by
          rw [List.length_take]
          exact Nat.min_eq_left (Nat.le_of_lt hk)
        rw [Bool.and_eq_true]
        constructor
        · rw [decide_eq_true_eq]
          show ((pathSegments p).take (k + 1)).length < (pathSegments p).length
          rw [hlen]
          exact hk
        · rw [beq_iff_eq]
          show (pathSegments p).take ((pathSegments p).take (k + 1)).length =
            (pathSegments p).take (k + 1)
          rw [hlen]
    · rw [hres]
      unfold Hdf5DataFormat.datasets
      rw [entries_mk]
      rw [(List.perm_insertionSort (fun a b => pathLe a b = true)
        ((replaceEntry es (normalizePath p)
          ⟨[mat.rows, mat.cols], mat.entries⟩).map Prod.fst)).count_eq]
      unfold replaceEntry
      rw [List.map_append, List.count_append]
      have h0 : ((es.filter fun e =>
          e.1 != normalizePath p).map Prod.fst).count (normalizePath p) = 0 := by
        rw [List.count_eq_zero]
        intro hmem
        rw [List.mem_map] at hmem
        obtain ⟨e, hef, hfst⟩ := hmem
        have hne := List.of_mem_filter hef
        rw [hfst] at hne
        simp at hne
      rw [h0]
      simp

theorem writeDataset_deepPath_witness :
    ((⟨0, some (OpenMode.ReadWriteTruncate, [])⟩ :
        Hdf5DataFormat).writeDatasetMat
        "/Group1/Group2a/Group3/Group4/Group5/Deeeep"
        ⟨1, 1, [0.0]⟩).1.groupExists ["Group1", "Group2a", "Group3"] = true ∧
    ((⟨0, some (OpenMode.ReadWriteTruncate, [])⟩ :
        Hdf5DataFormat).writeDatasetMat
        "/Group1/Group2a/Group3/Group4/Group5/Deeeep"
        ⟨1, 1, [0.0]⟩).1.datasets.count
      "Group1/Group2a/Group3/Group4/Group5/Deeeep" = 1 := by
  have hmain := writeDataset_deepPath
    ⟨0, some (OpenMode.ReadWriteTruncate, [])⟩
    "/Group1/Group2a/Group3/Group4/Group5/Deeeep" ⟨1, 1, [0.0]⟩ 2 (by rfl)
  exact ⟨hmain.1 (by decide), hmain.2⟩

/-- C8: `FileFormat::clear` resets both the error log and the source
path to empty strings, so `error()` and `fileName()` return the empty
string afterwards; it is a total function on every state, hence safe to
call at any time, in particular on a freshly constructed instance before
any read or write. -/
theorem clear_resets (f : FileFormat) :
    f.clear.error = "" ∧ f.clear.fileName = "" ∧
    FileFormat.init.clear = FileFormat.init :=
  ⟨rfl, rfl, rfl⟩

theorem clear_resets_witness :
    (FileFormat.appendError FileFormat.init "bad input" true).clear.error =
      "" :=
  (clear_resets (FileFormat.appendError FileFormat.init "bad input" true)).1

/-- C9: on a freshly constructed `FileFormat` instance — before any
read, write, or `appendError` call — `error()` and `fileName()` both
return the empty string: the private string members are
default-constructed empty. -/
theorem freshFileFormat_empty :
    FileFormat.init.error = "" ∧ FileFormat.init.fileName = "" :=
  ⟨rfl, rfl⟩

/-- C10: opening the same existing container file in ReadOnly mode and
in ReadWriteAppend mode (writing nothing) yields identical `datasets()`
listings — the open mode affects neither which datasets are observed nor
their order — and `closeFile` succeeds in both modes. -/
theorem openMode_datasets_agree (h1 h2 : Hdf5DataFormat)
    (c : List (String × Dataset))
    (hc1 : h1.m_file = none) (hc2 : h2.m_file = none) :
    (h1.openFile (some c) OpenMode.ReadOnly).2 = true ∧
    (h2.openFile (some c) OpenMode.ReadWriteAppend).2 = true ∧
    (h1.openFile (some c) OpenMode.ReadOnly).1.datasets =
      (h2.openFile (some c) OpenMode.ReadWriteAppend).1.datasets ∧
    ((h1.openFile (some c) OpenMode.ReadOnly).1.closeFile).2 = true ∧
    ((h2.openFile (some c) OpenMode.ReadWriteAppend).1.closeFile).2 =
      true := by
  obtain ⟨t1, f1⟩ := h1
  obtain ⟨t2, f2⟩ := h2
  change f1 = none at hc1
  change f2 = none at hc2
  subst hc1
  subst hc2
  exact ⟨rfl, rfl, rfl, rfl, rfl⟩

theorem openMode_datasets_agree_witness :
    ((⟨5, none⟩ : Hdf5DataFormat).openFile
        (some [("Data", ⟨[1], [0.0]⟩)]) OpenMode.ReadOnly).1.datasets =
      ((⟨7, none⟩ : Hdf5DataFormat).openFile
        (some [("Data", ⟨[1], [0.0]⟩)]) OpenMode.ReadWriteAppend).1.datasets ∧
    (((⟨5, none⟩ : Hdf5DataFormat).openFile
        (some [("Data", ⟨[1], [0.0]⟩)]) OpenMode.ReadOnly).1.closeFile).2 =
      true :=
  ⟨(openMode_datasets_agree ⟨5, none⟩ ⟨7, none⟩
      [("Data", ⟨[1], [0.0]⟩)] rfl rfl).2.2.1,
   (openMode_datasets_agree ⟨5, none⟩ ⟨7, none⟩
      [("Data", ⟨[1], [0.0]⟩)] rfl rfl).2.2.2.1⟩

end Io

end Avogadro
